import Mathlib

/-!
Verification development for the markdown + math rendering pipeline of the
reading-companion repository.  The TypeScript sources embedded here are
`src/utils/MathTextProcessor.ts` (scanner, placeholder substitution,
reconstruction, escaped-dollar pre/post processing),
`src/utils/KatexMathRenderer.ts` (per-expression rendering with fallback and
error markup), `src/utils/UnifiedMarkdownProcessor.ts` (orchestrator,
fallback processing, statistics) and the orchestration effect in
`src/components/MathMarkdownRenderer.tsx`.

Strings are modelled as `List Char` (JS strings scanned char by char).  The
external collaborators — the `unified`/`showdown` markdown transforms and the
dynamically loaded KaTeX engine — are not code of this repository; they are
modelled as explicit parameters (`transform`, `md`, `KatexEngine`).  JavaScript
regular-expression scans are embedded as explicit leftmost-match scanners with
a fuel argument (`input.length + 1` steps always suffice because every step
consumes at least one character); fuel keeps the functions structurally
recursive so that concrete runs reduce by `decide`/`rfl`.
-/

abbrev Chars := List Char

/-- Length of the longest prefix of the list all of whose characters satisfy
`p` — the run a regex character class such as `[^$\n]` consumes. -/
def runLen (p : Char → Bool) : Chars → Nat
  | [] => 0
  | c :: cs => if p c then runLen p cs + 1 else 0

/-- Substring test, `String.prototype.includes` / membership of an infix. -/
def hasSub (p : Chars) : Chars → Bool
  | [] => p.isEmpty
  | c :: cs => p.isPrefixOf (c :: cs) || hasSub p cs

/-- Index of the first occurrence of `p` as a prefix of a suffix (leftmost
match position of a literal pattern). -/
def findSubIdx (p : Chars) : Chars → Option Nat
  | [] => if p.isEmpty then some 0 else none
  | c :: cs => if p.isPrefixOf (c :: cs) then some 0 else (findSubIdx p cs).map (· + 1)

/-- Like `findSubIdx` but the skipped characters may not contain a newline —
the search a lazy `.*?` performs (JS `.` does not match `\n`). -/
def findSubIdxNoNl (p : Chars) : Chars → Option Nat
  | [] => if p.isEmpty then some 0 else none
  | c :: cs =>
    if p.isPrefixOf (c :: cs) then some 0
    else if c = '\n' then none
    else (findSubIdxNoNl p cs).map (· + 1)

/-- JS `String.prototype.trim` on the model alphabet. -/
def trimChars (cs : Chars) : Chars :=
  ((cs.dropWhile Char.isWhitespace).reverse.dropWhile Char.isWhitespace).reverse

/-- Generic global replace of a literal pattern, the semantics of
`String.prototype.replace(/pattern/g, replacement)` for a literal pattern:
leftmost match, replace, continue after the match. -/
def replAllGo (p r : Chars) : Nat → Chars → Chars
  | 0, _ => []
  | _ + 1, [] => []
  | fuel + 1, c :: cs =>
    if p.isPrefixOf (c :: cs) then r ++ replAllGo p r fuel ((c :: cs).drop p.length)
    else c :: replAllGo p r fuel cs

def replAll (p r s : Chars) : Chars := replAllGo p r (s.length + 1) s

/-- Generic global regex replace: `matchAt` reports, for a match starting at
the head of its argument, the replacement text and the match length (at least
one character).  Non-matching positions are copied and skipped one at a
time, exactly the global-`exec`/`replace` scan. -/
def scanReplGo (matchAt : Chars → Option (Chars × Nat)) : Nat → Chars → Chars
  | 0, _ => []
  | _ + 1, [] => []
  | fuel + 1, c :: cs =>
    match matchAt (c :: cs) with
    | some (rep, L) => rep ++ scanReplGo matchAt fuel ((c :: cs).drop L)
    | none => c :: scanReplGo matchAt fuel cs

def scanRepl (matchAt : Chars → Option (Chars × Nat)) (cs : Chars) : Chars :=
  scanReplGo matchAt (cs.length + 1) cs

/-- Count of global matches of a pattern (`String.prototype.match(/…/g) length`),
`matchAt` returning the match length at the head position. -/
def countMatchesGo (matchAt : Chars → Option Nat) : Nat → Chars → Nat
  | 0, _ => 0
  | _ + 1, [] => 0
  | fuel + 1, c :: cs =>
    match matchAt (c :: cs) with
    | some L => countMatchesGo matchAt fuel ((c :: cs).drop L) + 1
    | none => countMatchesGo matchAt fuel cs

def countMatches (matchAt : Chars → Option Nat) (cs : Chars) : Nat :=
  countMatchesGo matchAt (cs.length + 1) cs

def literalMatchAt (p : Chars) (cs : Chars) : Option Nat :=
  if p.isPrefixOf cs then some p.length else none

/-- Count of occurrences of a literal substring (`match(/literal/g)`). -/
def countSub (p s : Chars) : Nat := countMatches (literalMatchAt p) s

/-- Split-with-capture, the semantics of `String.prototype.split` with a
regex whose whole body is one capture group: text pieces and matches
alternate, the first and last element are (possibly empty) text pieces. -/
def splitByMatchesGo (matchAt : Chars → Option Nat) : Nat → Chars → Chars → List Chars
  | 0, accu, _ => [accu.reverse]
  | _ + 1, accu, [] => [accu.reverse]
  | fuel + 1, accu, c :: cs =>
    match matchAt (c :: cs) with
    | some L =>
      accu.reverse :: (c :: cs).take L :: splitByMatchesGo matchAt fuel [] ((c :: cs).drop L)
    | none => splitByMatchesGo matchAt fuel (c :: accu) cs

def splitByMatches (matchAt : Chars → Option Nat) (cs : Chars) : List Chars :=
  splitByMatchesGo matchAt (cs.length + 1) [] cs

/-- Decimal digit character, used to embed JS number-to-string conversion. -/
def digitChar (d : Nat) : Char := ("0123456789".toList).getD d '0'

def natDigitsGo : Nat → Nat → Chars
  | 0, _ => []
  | fuel + 1, n => if n < 10 then [digitChar n] else natDigitsGo fuel (n / 10) ++ [digitChar (n % 10)]

/-- Decimal representation of a natural number, the JS template interpolation
of the placeholder index. -/
def natToChars (n : Nat) : Chars := natDigitsGo (n + 1) n

/-- JS `parseInt` on a run of decimal digits. -/
def digitsToNat (ds : Chars) : Nat := ds.foldl (fun a c => a * 10 + (c.toNat - 48)) 0

/-! ## MathTextProcessor (src/utils/MathTextProcessor.ts) -/

inductive MType where
  | inline : MType
  | display : MType
deriving DecidableEq, Repr

/-- One element of the array built by
`MathTextProcessor.extractMathExpressions`: the matched source slice, the
trimmed delimiter-free content, the kind, and the half-open source range. -/
structure MathExpr where
  matched : Chars
  content : Chars
  type : MType
  start : Nat
  stop : Nat
deriving DecidableEq, Repr

/-- Match of the display regex `/\$\$([^$]+?)\$\$/` at the head position:
two dollars, a nonempty run of non-dollar characters (the lazy quantifier
ends the content at the first dollar), then two closing dollars.  Returns
the raw content and the match length. -/
def displayMatchAt : Chars → Option (Chars × Nat)
  | c1 :: c2 :: tail =>
    if c1 = '$' ∧ c2 = '$' then
      let k := runLen (fun c => c != '$') tail
      if k = 0 then none
      else if tail[k]? = some '$' ∧ tail[k + 1]? = some '$' then some (tail.take k, k + 4)
      else none
    else none
  | _ => none

/-- Match of the inline regex body `\$([^$\n]+?)\$` at the head position:
one dollar, a nonempty run of non-dollar non-newline characters, a closing
dollar.  (The `(?<!\\)` lookbehind is enforced by the scanner, which tracks
the preceding character.) -/
def inlineMatchAt : Chars → Option (Chars × Nat)
  | [] => none
  | c :: tail =>
    if c = '$' then
      let k := runLen (fun x => x != '$' && x != '\n') tail
      if k = 0 then none
      else if tail[k]? = some '$' then some (tail.take k, k + 2)
      else none
    else none

/-- Global scan of the display regex: leftmost matches, continuing after each
match, tracking the absolute position. -/
def scanDisplayGo : Nat → Chars → Nat → List MathExpr
  | 0, _, _ => []
  | _ + 1, [], _ => []
  | fuel + 1, c :: cs, pos =>
    match displayMatchAt (c :: cs) with
    | some (content, L) =>
      { matched := (c :: cs).take L, content := trimChars content, type := MType.display,
        start := pos, stop := pos + L } :: scanDisplayGo fuel ((c :: cs).drop L) (pos + L)
    | none => scanDisplayGo fuel cs (pos + 1)

def scanDisplay (text : Chars) : List MathExpr := scanDisplayGo (text.length + 1) text 0

/-- Raw (pre-filter) match of the inline regex as produced by the global
`exec` loop: matched slice, untrimmed capture, absolute range. -/
structure InlineMatch where
  matched : Chars
  raw : Chars
  start : Nat
  stop : Nat
deriving DecidableEq, Repr

/-- Global scan of `/(?<!\\)\$([^$\n]+?)\$/g`: `prev` is the character before
the current position (the lookbehind); after a match the scan resumes after
the match, whose last character is a dollar. -/
def scanInlineGo : Nat → Chars → Nat → Option Char → List InlineMatch
  | 0, _, _, _ => []
  | _ + 1, [], _, _ => []
  | fuel + 1, c :: cs, pos, prev =>
    if prev = some '\\' then scanInlineGo fuel cs (pos + 1) (some c)
    else
      match inlineMatchAt (c :: cs) with
      | some (raw, L) =>
        { matched := (c :: cs).take L, raw := raw, start := pos, stop := pos + L }
          :: scanInlineGo fuel ((c :: cs).drop L) (pos + L) (some '$')
      | none => scanInlineGo fuel cs (pos + 1) (some c)

def scanInline (text : Chars) : List InlineMatch := scanInlineGo (text.length + 1) text 0 none

def hasAdjPair (p q : Char → Bool) : Chars → Bool
  | a :: b :: rest => (p a && q b) || hasAdjPair p q (b :: rest)
  | _ => false

def hasOpenClose (o c : Char) : Chars → Bool
  | [] => false
  | x :: rest => (x == o && rest.any (fun y => y == c)) || hasOpenClose o c rest

/-- `MathTextProcessor.isValidInlineMath`: the content must satisfy at least
one of the seven regex heuristics (operator, LaTeX brace/caret/underscore
syntax, a backslash command, a digit, a letter followed by a digit, a
parenthesis pair, a bracket pair). -/
def isValidInlineMath (content : Chars) : Bool :=
  if content.isEmpty then false
  else
    content.any (fun c => c == '+' || c == '-' || c == '*' || c == '/' ||
        c == '=' || c == '<' || c == '>')
    || content.any (fun c => c == '{' || c == '}' || c == '^' || c == '_')
    || hasAdjPair (fun c => c == '\\') Char.isAlpha content
    || content.any Char.isDigit
    || hasAdjPair Char.isAlpha Char.isDigit content
    || hasOpenClose '(' ')' content
    || hasOpenClose '[' ']' content

/-- The overlap test from `extractMathExpressions`: an inline candidate with
range `[start, stop)` is rejected when it overlaps an already collected
expression according to this (start-inside or end-inside) disjunction. -/
def overlapsCheck (e : MathExpr) (start stop : Nat) : Bool :=
  (decide (start ≥ e.start) && decide (start < e.stop)) ||
  (decide (stop > e.start) && decide (stop ≤ e.stop))

def startLE (a b : MathExpr) : Prop := a.start ≤ b.start

instance : DecidableRel startLE := fun a b => Nat.decLe a.start b.start

instance : IsTotal MathExpr startLE := ⟨fun a b => Nat.le_total a.start b.start⟩

instance : IsTrans MathExpr startLE := ⟨fun _ _ _ h h2 => Nat.le_trans h h2⟩

def startGE (a b : MathExpr) : Prop := b.start ≤ a.start

instance : DecidableRel startGE := fun a b => Nat.decLe b.start a.start

instance : IsTotal MathExpr startGE := ⟨fun a b => Nat.le_total b.start a.start⟩

instance : IsTrans MathExpr startGE := ⟨fun _ _ _ h h2 => Nat.le_trans h2 h⟩

/-- Body of the inline loop of `extractMathExpressions`: the inline match is
pushed only when it does not overlap any already collected expression and
its raw capture passes the math heuristic. -/
def inlineAccept (acc : List MathExpr) (m : InlineMatch) : List MathExpr :=
  if acc.any (fun e => overlapsCheck e m.start m.stop) then acc
  else if isValidInlineMath m.raw then
    acc ++ [{ matched := m.matched, content := trimChars m.raw, type := MType.inline,
              start := m.start, stop := m.stop }]
  else acc

/-- `MathTextProcessor.extractMathExpressions`: find display matches first,
then inline matches; an inline match is kept only if it does not overlap an
already collected expression and passes the math heuristic; finally the
collected expressions are stable-sorted by start position (`Array.prototype.sort`
with comparator `a.start - b.start`; `List.insertionSort` is a stable sort). -/
def extractMathExpressions (text : Chars) : List MathExpr :=
  List.insertionSort startLE ((scanInline text).foldl inlineAccept (scanDisplay text))

/-- `MathChunk` of the source (index is a JS number; `extractIndexFromPlaceholder`
returns `-1` on failure, hence `Int`). -/
structure MathChunk where
  content : Chars
  type : MType
  index : Int
  originalMatch : Chars
deriving DecidableEq, Repr

/-- The placeholder token `__MATH_INLINE_${index}__` / `__MATH_DISPLAY_${index}__`. -/
def placeholderToken (t : MType) (index : Nat) : Chars :=
  match t with
  | MType.inline => "__MATH_INLINE_".toList ++ natToChars index ++ "__".toList
  | MType.display => "__MATH_DISPLAY_".toList ++ natToChars index ++ "__".toList

/-- Loop body of `replaceMathWithPlaceholders`: the expressions, sorted by
descending start, are spliced out back to front (so earlier offsets stay
valid) and the chunks are `unshift`ed, ending up ordered by ascending index. -/
def replaceGo (n : Nat) : List MathExpr → Nat → Chars → List MathChunk → Chars × List MathChunk
  | [], _, t, parts => (t, parts)
  | e :: rest, revIdx, t, parts =>
    let index := n - 1 - revIdx
    let ph := placeholderToken e.type index
    replaceGo n rest (revIdx + 1) (t.take e.start ++ ph ++ t.drop e.stop)
      ({ content := e.content, type := e.type, index := (index : Int),
         originalMatch := e.matched } :: parts)

def replaceMathWithPlaceholders (text : Chars) (mathExpressions : List MathExpr) :
    Chars × List MathChunk :=
  let sortedExpressions := List.insertionSort startGE mathExpressions
  replaceGo mathExpressions.length sortedExpressions 0 text []

/-- Tail of the placeholder regex after the kind word: `_`-separated digits
then the closing double underscore (`\d+__`, greedy digits). -/
def placeholderTailLen (rest : Chars) : Option Nat :=
  let k := runLen Char.isDigit rest
  if k = 0 then none
  else
    match rest.drop k with
    | '_' :: '_' :: _ => some (k + 2)
    | _ => none

/-- Match of `/(__MATH_(?:INLINE|DISPLAY)_\d+__)/` at the head position. -/
def placeholderMatchAt (cs : Chars) : Option Nat :=
  if ("__MATH_INLINE_".toList).isPrefixOf cs then
    (placeholderTailLen (cs.drop 14)).map (fun k => 14 + k)
  else if ("__MATH_DISPLAY_".toList).isPrefixOf cs then
    (placeholderTailLen (cs.drop 15)).map (fun k => 15 + k)
  else none

/-- `MathTextProcessor.splitTextByPlaceholders`: split with the capturing
placeholder regex, so text pieces and placeholder tokens alternate. -/
def splitTextByPlaceholders (text : Chars) : List Chars :=
  splitByMatches placeholderMatchAt text

structure ParsedContent where
  textParts : List Chars
  mathParts : List MathChunk
  hasValidMath : Bool
deriving DecidableEq, Repr

/-- `MathTextProcessor.parse`.  The falsy-input early return and the
no-math early return produce `[text]` with no math parts; the catch branch of
the source is unreachable in this pure model. -/
def parse (text : Chars) : ParsedContent :=
  if text.isEmpty then { textParts := [text], mathParts := [], hasValidMath := false }
  else
    let mathMatches := extractMathExpressions text
    if mathMatches.isEmpty then { textParts := [text], mathParts := [], hasValidMath := false }
    else
      let res := replaceMathWithPlaceholders text mathMatches
      { textParts := splitTextByPlaceholders res.1, mathParts := res.2,
        hasValidMath := decide (res.2.length > 0) }

/-- `extractIndexFromPlaceholder`: the regex `/(\d+)__$/` — greedy digits
immediately before a final double underscore; `parseInt` of the capture,
`-1` if there is no match. -/
def extractIndexFromPlaceholder (placeholder : Chars) : Int :=
  match placeholder.reverse with
  | '_' :: '_' :: rest =>
    let ds := rest.takeWhile Char.isDigit
    if ds.isEmpty then -1 else (digitsToNat ds.reverse : Int)
  | _ => -1

/-- Per-part contribution inside the `reconstructText` loop: a part starting
with `__MATH_` is treated as a placeholder and replaced by the rendered
markup at its extracted index, else by the matching chunk's original text,
else by nothing; any other part is copied. -/
def placeholderContribution (mathParts : List MathChunk) (renderedMath : List (Int × Chars))
    (part : Chars) : Chars :=
  if ("__MATH_".toList).isPrefixOf part then
    let mathIndex := extractIndexFromPlaceholder part
    match renderedMath.lookup mathIndex with
    | some renderedContent => renderedContent
    | none =>
      match mathParts.find? (fun m => m.index == mathIndex) with
      | some mathPart => mathPart.originalMatch
      | none => []
  else part

/-- `MathTextProcessor.reconstructText` (the rendered-math map is modelled as
an association list keyed by the chunk index). -/
def reconstructText (textParts : List Chars) (mathParts : List MathChunk)
    (renderedMath : List (Int × Chars)) : Chars :=
  textParts.foldl (fun result part => result ++ placeholderContribution mathParts renderedMath part) []

/-- `MathTextProcessor.preprocessText`: replace every escaped dollar `\$`
with the sentinel `__ESCAPED_DOLLAR__`. -/
def preprocessText (text : Chars) : Chars :=
  replAll ("\\$".toList) ("__ESCAPED_DOLLAR__".toList) text

/-- `MathTextProcessor.postprocessText`: replace every occurrence of the
sentinel `__ESCAPED_DOLLAR__` with a literal dollar. -/
def postprocessText (text : Chars) : Chars :=
  replAll ("__ESCAPED_DOLLAR__".toList) ("$".toList) text

/-! ## UnifiedMarkdownProcessor (src/utils/UnifiedMarkdownProcessor.ts) -/

structure ProcessingStats where
  inlineMath : Nat
  displayMath : Nat
  codeBlocks : Nat
  tables : Nat
  footnotes : Nat
  processingTime : Nat
deriving DecidableEq, Repr

inductive ProcessorKind where
  | unified : ProcessorKind
  | fallback : ProcessorKind
deriving DecidableEq, Repr

structure ProcessingResult where
  html : Chars
  stats : ProcessingStats
  success : Bool
  error : Option Chars
  processor : ProcessorKind
deriving DecidableEq, Repr

/-- The source's `escapeHtml` in its pure (no-DOM) branch: sequential global
replaces of `&`, `<`, `>`, `"`, `'` — equivalent to this character-wise map
because `&` is replaced first and no later replacement target occurs in an
earlier replacement string. -/
def escapeHtml (text : Chars) : Chars :=
  (text.map (fun c =>
    if c = '&' then "&amp;".toList
    else if c = '<' then "&lt;".toList
    else if c = '>' then "&gt;".toList
    else if c = '"' then "&quot;".toList
    else if c = Char.ofNat 39 then "&#39;".toList
    else [c])).flatten

/-- Match of the stats display regex `/\$\$[\s\S]+?\$\$/` at the head
position: two dollars, a nonempty lazy run of arbitrary characters ending at
the first following occurrence of two dollars.  Unlike the scanner regex the
content may contain single dollars. -/
def displayAnyMatchAt : Chars → Option Nat
  | '$' :: '$' :: tail =>
    match tail with
    | [] => none
    | _ :: t2 => (findSubIdx ("$$".toList) t2).map (fun q => q + 5)
  | _ => none

/-- Match of the stats code-block regex `/```[\s\S]*?```/` at the head
position (possibly empty lazy content up to the next triple backtick). -/
def codeBlockMatchAt (cs : Chars) : Option Nat :=
  if ("```".toList).isPrefixOf cs then
    (findSubIdx ("```".toList) (cs.drop 3)).map (fun i => i + 6)
  else none

/-- `UnifiedMarkdownProcessor.calculateStats`: inline math counted with
`/\$[^$\n]+?\$/g` (no lookbehind, no overlap exclusion) on the markdown
source, display math with `/\$\$[\s\S]+?\$\$/g`, code blocks with
`/```[\s\S]*?```/g`, tables as `<table>` occurrences in the produced HTML;
footnotes are hardcoded zero, the duration is supplied by the caller. -/
def calculateStats (markdown html : Chars) (processingTime : Nat) : ProcessingStats :=
  { inlineMath := countMatches (fun cs => (inlineMatchAt cs).map (fun x => x.2)) markdown,
    displayMath := countMatches displayAnyMatchAt markdown,
    codeBlocks := countMatches codeBlockMatchAt markdown,
    tables := countSub ("<table>".toList) html,
    footnotes := 0,
    processingTime := processingTime }

def getEmptyStats : ProcessingStats :=
  { inlineMath := 0, displayMath := 0, codeBlocks := 0, tables := 0, footnotes := 0,
    processingTime := 0 }

/-- Lines of a string (`^`/`$` anchors of a multiline regex operate per line). -/
def splitOnNl : Chars → List Chars
  | [] => [[]]
  | c :: rest =>
    if c = '\n' then [] :: splitOnNl rest
    else
      match splitOnNl rest with
      | h :: t => (c :: h) :: t
      | [] => [[c]]

/-- One header replace of `fallbackProcess`, e.g. `/^### (.*$)/gim`: a line
starting with the marker is wrapped in the heading tags, the rest of the
line becoming the content. -/
def headingReplaceLine (marker openTag closeTag : Chars) (line : Chars) : Chars :=
  if marker.isPrefixOf line then openTag ++ line.drop marker.length ++ closeTag else line

def headingReplace (marker openTag closeTag : Chars) (s : Chars) : Chars :=
  List.intercalate ("\n".toList) ((splitOnNl s).map (headingReplaceLine marker openTag closeTag))

/-- Match of a lazy single-line delimited span such as `/\*\*(.*?)\*\*/` at
the head position: the opening delimiter, the shortest (possibly empty)
newline-free content followed by the closing delimiter; the replacement
wraps the content in the given tags. -/
def lazyDelimMatchAt (op cl wrapO wrapC : Chars) (cs : Chars) : Option (Chars × Nat) :=
  if op.isPrefixOf cs then
    let rest := cs.drop op.length
    let pre := rest.takeWhile (fun c => c != '\n')
    match findSubIdx cl pre with
    | some q => some (wrapO ++ pre.take q ++ wrapC, op.length + q + cl.length)
    | none => none
  else none

/-- Match of `/```([^`]*?)```/gs` at the head position (the fallback's code
block rule: non-backtick lazy content between triple backticks). -/
def codeBlockReplMatchAt (cs : Chars) : Option (Chars × Nat) :=
  if ("```".toList).isPrefixOf cs then
    let rest := cs.drop 3
    let k := runLen (fun c => c != '`') rest
    if ("```".toList).isPrefixOf (rest.drop k) then
      some (("<pre><code>".toList) ++ rest.take k ++ ("</code></pre>".toList), k + 6)
    else none
  else none

/-- Match of the fallback link rule `/\[([^\]]+)\]\(([^)]+)\)/g` at the head
position, replaced by `<a href="$2">$1</a>`. -/
def linkMatchAt (cs : Chars) : Option (Chars × Nat) :=
  match cs with
  | '[' :: rest =>
    let k1 := runLen (fun c => c != ']') rest
    if k1 = 0 then none
    else
      match rest.drop k1 with
      | ']' :: '(' :: rest2 =>
        let k2 := runLen (fun c => c != ')') rest2
        if k2 = 0 then none
        else
          match rest2.drop k2 with
          | ')' :: _ =>
            some (("<a href=\"".toList) ++ rest2.take k2 ++ ("\">".toList)
                    ++ rest.take k1 ++ ("</a>".toList),
                  k1 + k2 + 4)
          | _ => none
      | _ => none
  | _ => none

/-- The formatting passes of `fallbackProcess` applied after HTML escaping,
in source order: h3/h2/h1 headers, bold, italic, inline code, code blocks,
links, paragraph breaks (`\n\n` to `</p><p>`), then `\n` to `<br>`. -/
def basicFormat (escaped : Chars) : Chars :=
  let h := headingReplace ("### ".toList) ("<h3>".toList) ("</h3>".toList) escaped
  let h := headingReplace ("## ".toList) ("<h2>".toList) ("</h2>".toList) h
  let h := headingReplace ("# ".toList) ("<h1>".toList) ("</h1>".toList) h
  let h := scanRepl (lazyDelimMatchAt ("**".toList) ("**".toList)
    ("<strong>".toList) ("</strong>".toList)) h
  let h := scanRepl (lazyDelimMatchAt ("*".toList) ("*".toList)
    ("<em>".toList) ("</em>".toList)) h
  let h := scanRepl (lazyDelimMatchAt ("`".toList) ("`".toList)
    ("<code>".toList) ("</code>".toList)) h
  let h := scanRepl codeBlockReplMatchAt h
  let h := scanRepl linkMatchAt h
  let h := replAll ("\n\n".toList) ("</p><p>".toList) h
  replAll ("\n".toList) ("<br>".toList) h

/-- Match of `/<table([^>]*)>/g` at the head position, replaced by
`<div class="table-wrapper"><table$1>`. -/
def tableOpenMatchAt (cs : Chars) : Option (Chars × Nat) :=
  if ("<table".toList).isPrefixOf cs then
    let rest := cs.drop 6
    let k := runLen (fun c => c != '>') rest
    match rest.drop k with
    | '>' :: _ =>
      some (("<div class=\"table-wrapper\"><table".toList) ++ rest.take k ++ (">".toList),
            k + 7)
    | _ => none
  else none

/-- `UnifiedMarkdownProcessor.wrapTablesInScrollableDiv`. -/
def wrapTablesInScrollableDiv (html : Chars) : Chars :=
  replAll ("</table>".toList) ("</table></div>".toList) (scanRepl tableOpenMatchAt html)

/-- Match of `(closing tag)(?!\s*<)` at the head position: the tag matches
only when the first non-whitespace character after it is not `<` (that is
the negative lookahead); the replacement appends a newline. -/
def closeTagNlMatchAt (tag : Chars) (cs : Chars) : Option (Chars × Nat) :=
  if tag.isPrefixOf cs then
    let rest := cs.drop tag.length
    match (rest.dropWhile Char.isWhitespace).head? with
    | some '<' => none
    | _ => some (tag ++ ("\n".toList), tag.length)
  else none

/-- Match of `/(<\/h[1-6]>)(?!\s*<)/g` at the head position. -/
def hCloseMatchAt (cs : Chars) : Option (Chars × Nat) :=
  match cs with
  | '<' :: '/' :: 'h' :: d :: '>' :: rest =>
    if 49 ≤ d.toNat && d.toNat ≤ 54 then
      match (rest.dropWhile Char.isWhitespace).head? with
      | some '<' => none
      | _ => some ('<' :: '/' :: 'h' :: d :: '>' :: '\n' :: [], 5)
    else none
  | _ => none

/-- Match of `/\n\s*\n\s*\n/g` at the head position.  All matched characters
are whitespace, so a match exists exactly when the newline is followed by a
whitespace run containing at least two further newlines, and backtracking
makes the greedy match end at the last newline of that run; the replacement
is a double newline. -/
def tripleNlMatchAt (cs : Chars) : Option (Chars × Nat) :=
  match cs with
  | '\n' :: rest =>
    let run := rest.takeWhile Char.isWhitespace
    if run.count '\n' ≥ 2 then
      let revIdx := ((run.reverse.findIdx? (fun c => c == '\n')).getD 0)
      some ("\n\n".toList, run.length - revIdx + 1)
    else none
  | _ => none

/-- `UnifiedMarkdownProcessor.postProcessHtml`: wrap tables in scrollable
divs, add a newline after heading and paragraph closers not followed by a
tag, collapse runs of three blank-separated newlines. -/
def postProcessHtml (html : Chars) : Chars :=
  let h := wrapTablesInScrollableDiv html
  let h := scanRepl hCloseMatchAt h
  let h := scanRepl (closeTagNlMatchAt ("</p>".toList)) h
  scanRepl tripleNlMatchAt h

/-- `UnifiedMarkdownProcessor.fallbackProcess` (the body of its `try`; the
inner catch is unreachable in this pure model because the pure `escapeHtml`
branch and the regex replaces cannot throw). -/
def fallbackProcess (markdown : Chars) : ProcessingResult :=
  let html := basicFormat (escapeHtml markdown)
  let html := ("<p>".toList) ++ html ++ ("</p>".toList)
  { html := postProcessHtml html,
    stats := getEmptyStats,
    success := false,
    error := some ("Using basic fallback processing".toList),
    processor := ProcessorKind.fallback }

/-- A thrown JavaScript value as observed by the catch handler: whether it
is an `Error` instance, and its message. -/
structure JsError where
  isError : Bool
  message : Chars

/-- Environment of a `processMarkdown` call: whether the unified processor
chain was constructed, the external unified/remark transform (it may throw),
and the observed wall-clock duration. -/
structure UnifiedEnv where
  isInitialized : Bool
  transform : Chars → Except JsError Chars
  elapsed : Nat

def emptyResult : ProcessingResult :=
  { html := [], stats := getEmptyStats, success := true, error := none,
    processor := ProcessorKind.unified }

/-- `UnifiedMarkdownProcessor.processMarkdown`: falsy input returns the
empty success result; an uninitialized processor falls back; otherwise the
external transform runs, its output is post-processed and counted, and a
thrown error is converted to the fallback result with the error message
overridden by `error instanceof Error ? error.message : 'Processing failed'`. -/
def processMarkdown (env : UnifiedEnv) (markdown : Option Chars) : ProcessingResult :=
  match markdown with
  | none => emptyResult
  | some md =>
    if md.isEmpty then emptyResult
    else if !env.isInitialized then fallbackProcess md
    else
      match env.transform md with
      | Except.ok processed =>
        let html := postProcessHtml processed
        { html := html, stats := calculateStats md html env.elapsed,
          success := true, error := none, processor := ProcessorKind.unified }
      | Except.error e =>
        { fallbackProcess md with
          error := some (if e.isError then e.message else "Processing failed".toList) }

/-- The same entry point with the try/catch structure made explicit in the
exception monad: the only fallible step is the external transform, and its
exception is caught and converted to the fallback result. -/
def processMarkdownE (env : UnifiedEnv) (markdown : Option Chars) :
    Except JsError ProcessingResult :=
  match markdown with
  | none => Except.ok emptyResult
  | some md =>
    if md.isEmpty then Except.ok emptyResult
    else if !env.isInitialized then Except.ok (fallbackProcess md)
    else
      Except.tryCatch
        (do
          let processed ← env.transform md
          let html := postProcessHtml processed
          Except.ok { html := html, stats := calculateStats md html env.elapsed,
                      success := true, error := none, processor := ProcessorKind.unified })
        (fun e =>
          Except.ok { fallbackProcess md with
                      error := some (if e.isError then e.message
                                     else "Processing failed".toList) })

/-! ## KaTeXMathRenderer (src/utils/KatexMathRenderer.ts) -/

/-- The lazily loaded KaTeX engine: either it failed to load, or it is
available as a `renderToString` function that either returns markup or
throws (the thrown value's message, if any). -/
inductive KatexEngine where
  | unavailable : KatexEngine
  | loaded : (Chars → Bool → Except (Option Chars) Chars) → KatexEngine

/-- The DOM `textContent`/`innerHTML` escape used by the renderer: text-node
serialization escapes `&`, `<` and `>`. -/
def escapeHtmlDom (text : Chars) : Chars :=
  (text.map (fun c =>
    if c = '&' then "&amp;".toList
    else if c = '<' then "&lt;".toList
    else if c = '>' then "&gt;".toList
    else [c])).flatten

def mathSymbol (isDisplayMode : Bool) : Chars :=
  if isDisplayMode then "$$".toList else "$".toList

def fallbackContainerClass (isDisplayMode : Bool) : Chars :=
  if isDisplayMode then "math-fallback-display".toList else "math-fallback-inline".toList

def errorContainerClass (isDisplayMode : Bool) : Chars :=
  if isDisplayMode then "math-error-display".toList else "math-error-inline".toList

def katexContainerClass (isDisplayMode : Bool) : Chars :=
  if isDisplayMode then "katex-display-container".toList else "katex-inline-container".toList

/-- `KaTeXMathRenderer.createFallbackHTML`: neutral fallback used when the
engine is unavailable — the escaped math source surrounded by its mode
delimiters inside a `math-fallback-*` span. -/
def createFallbackHTML (mathContent : Chars) (isDisplayMode : Bool) : Chars :=
  ("<span class=\"".toList) ++ fallbackContainerClass isDisplayMode
    ++ ("\" title=\"Math formula (KaTeX not loaded)\">".toList)
    ++ mathSymbol isDisplayMode ++ escapeHtmlDom mathContent ++ mathSymbol isDisplayMode
    ++ ("</span>".toList)

/-- `error?.message || 'Rendering failed'` (an empty message is falsy in JS
and also falls back to the default text). -/
def errorMessageOf (error : Option Chars) : Chars :=
  match error with
  | some m => if m.isEmpty then "Rendering failed".toList else m
  | none => "Rendering failed".toList

/-- `KaTeXMathRenderer.createErrorHTML`: error-styled fallback used when
rendering throws — the escaped math source, without delimiters, inside a
`math-error-*` span whose title carries the error message. -/
def createErrorHTML (mathContent : Chars) (isDisplayMode : Bool) (error : Option Chars) : Chars :=
  ("<span class=\"".toList) ++ errorContainerClass isDisplayMode
    ++ ("\" title=\"Math error: ".toList) ++ escapeHtmlDom (errorMessageOf error)
    ++ ("\">".toList) ++ escapeHtmlDom mathContent ++ ("</span>".toList)

/-- `KaTeXMathRenderer.renderMath`: neutral fallback when the engine is not
initialized; otherwise `renderToString` output wrapped in the mode-specific
katex container, with a thrown rendering error caught and converted to the
error markup. -/
def renderMath (engine : KatexEngine) (mathContent : Chars) (isDisplayMode : Bool) : Chars :=
  match engine with
  | KatexEngine.unavailable => createFallbackHTML mathContent isDisplayMode
  | KatexEngine.loaded renderToString =>
    match renderToString mathContent isDisplayMode with
    | Except.ok rendered =>
      ("<span class=\"".toList) ++ katexContainerClass isDisplayMode ++ ("\">".toList)
        ++ rendered ++ ("</span>".toList)
    | Except.error err => createErrorHTML mathContent isDisplayMode err

/-- `KaTeXMathRenderer.renderMathBatch`: the result map keyed by chunk index
(modelled as an association list); with an unavailable engine every chunk
gets the neutral fallback, otherwise each chunk is rendered independently
through `renderMath` (whose catch already isolates per-expression failures,
making the batch-level catch unreachable). -/
def renderMathBatch (engine : KatexEngine) (mathParts : List MathChunk) : List (Int × Chars) :=
  if mathParts.isEmpty then []
  else
    match engine with
    | KatexEngine.unavailable =>
      mathParts.map (fun p => (p.index, createFallbackHTML p.content (p.type == MType.display)))
    | KatexEngine.loaded f =>
      mathParts.map (fun p =>
        (p.index, renderMath (KatexEngine.loaded f) p.content (p.type == MType.display)))

/-! ## MathMarkdownRenderer (src/components/MathMarkdownRenderer.tsx) -/

def katexSpanMarker : Chars := "<span class=\"katex-".toList

/-- Match of the reconstruction split regex
`/(<span class="katex-[^>]*>.*?<\/span>)/` at the head position. -/
def katexSpanMatchAt (cs : Chars) : Option Nat :=
  if katexSpanMarker.isPrefixOf cs then
    let rest := cs.drop katexSpanMarker.length
    let k := runLen (fun c => c != '>') rest
    match rest.drop k with
    | '>' :: rest2 =>
      (findSubIdxNoNl ("</span>".toList) rest2).map
        (fun q => katexSpanMarker.length + k + 1 + q + 7)
    | _ => none
  else none

/-- `processReconstructedMarkdown` of the component: split the reconstructed
text around rendered math spans; pieces mentioning a math container class
pass through verbatim, all other pieces go through the external markdown
transform `md` (showdown), and the pieces are joined back in order. -/
def processReconstructedMarkdown (md : Chars → Chars) (text : Chars) : Chars :=
  let parts := splitByMatches katexSpanMatchAt text
  (parts.map (fun part =>
    if hasSub ("katex-".toList) part || hasSub ("math-fallback".toList) part
        || hasSub ("math-error".toList) part
    then part else md part)).flatten

/-- The happy path of `MathMarkdownRenderer.processMathMarkdown` (the value
stored into the `html` state): preprocess escaped dollars, parse, render the
math batch and reconstruct, run the markdown transform around the rendered
math, and postprocess the sentinel back to a literal dollar.  The parallel
`processRegularMarkdown` result computed from the joined text parts in the
source is never used afterwards and is omitted. -/
def processMathMarkdown (md : Chars → Chars) (engine : KatexEngine) (markdownText : Chars) :
    Chars :=
  if markdownText.isEmpty then []
  else
    let preprocessedText := preprocessText markdownText
    let parsed := parse preprocessedText
    if !parsed.hasValidMath then postprocessText (md preprocessedText)
    else
      let renderedMath := renderMathBatch engine parsed.mathParts
      let finalHtml := reconstructText parsed.textParts parsed.mathParts renderedMath
      let processedHtml := processReconstructedMarkdown md finalHtml
      postprocessText processedHtml

/-! ## Distinguished concrete inputs used by the claims -/

/-- The scenario input of the specification (section 8):
`"# Title\n\nInline $x^2$ and display:\n\n$$\int_0^1 f(x)dx$$\n\n- item one\n- item **two**"`. -/
def mathScenarioInput : Chars :=
  ("# Title\n\nInline $x^2$ and display:\n\n$$\\int_0^1 f(x)dx$$\n\n- item one\n- item **two**").toList

/-! ## Helper lemmas -/

theorem hasSub_iff (p : Chars) : ∀ s : Chars, hasSub p s = true ↔ p <:+: s := by
  intro s
  induction s with
  | nil => simp [hasSub, List.infix_nil, List.isEmpty_iff]
  | cons c cs ih =>
    simp only [hasSub, Bool.or_eq_true, List.isPrefixOf_iff_prefix, ih, List.infix_cons_iff]

theorem digitChar_isDigit (d : Nat) : (digitChar d).isDigit = true := by
  by_cases h : d < 10
  · interval_cases d <;> decide
  · rw [digitChar, List.getD_eq_default]
    · decide
    · have hlen : ("0123456789".toList).length = 10 := rfl
      omega

theorem natDigitsGo_isDigit : ∀ (fuel n : Nat), ∀ c ∈ natDigitsGo fuel n, c.isDigit = true := by
  intro fuel
  induction fuel with
  | zero => intro n c hc; simp [natDigitsGo] at hc
  | succ fuel ih =>
    intro n c hc
    rw [natDigitsGo] at hc
    by_cases h : n < 10
    · rw [if_pos h] at hc
      rw [List.mem_singleton] at hc
      subst hc
      exact digitChar_isDigit n
    · rw [if_neg h] at hc
      rcases List.mem_append.mp hc with h1 | h1
      · exact ih _ c h1
      · rw [List.mem_singleton] at h1
        subst h1
        exact digitChar_isDigit _

theorem prefix_replAllGo (p : Chars) (r0 : Char) (r' : Chars) :
    ∀ (fuel : Nat) (s q : Chars), (∀ c ∈ r0 :: r', c ∉ q) →
      q <+: replAllGo p (r0 :: r') fuel s → q <+: s := by
  intro fuel
  induction fuel with
  | zero =>
    intro s q hq h
    rw [replAllGo] at h
    have hq0 := List.prefix_nil.mp h
    subst hq0
    exact List.nil_prefix
  | succ fuel ih =>
    intro s q hq h
    match s with
    | [] =>
      rw [replAllGo] at h
      have hq0 := List.prefix_nil.mp h
      subst hq0
      exact List.nil_prefix
    | c :: cs =>
      rw [replAllGo] at h
      by_cases hp : p.isPrefixOf (c :: cs)
      · rw [if_pos hp, List.cons_append] at h
        rcases q with _ | ⟨q0, q'⟩
        · exact List.nil_prefix
        · have h0 := (List.cons_prefix_cons.mp h).1
          have hmem : r0 ∈ q0 :: q' := by
            rw [← h0]
            exact List.mem_cons_self q0 q'
          exact absurd hmem (hq r0 (List.mem_cons_self r0 r'))
      · rw [if_neg hp] at h
        rcases q with _ | ⟨q0, q'⟩
        · exact List.nil_prefix
        · obtain ⟨he, h'⟩ := List.cons_prefix_cons.mp h
          subst he
          have hq' : ∀ c ∈ r0 :: r', c ∉ q' :=
            fun c hc hm => hq c hc (List.mem_cons_of_mem _ hm)
          exact List.cons_prefix_cons.mpr ⟨rfl, ih cs q' hq' h'⟩

theorem infix_append_drop_of_not_mem {p0 : Char} {P' : Chars} :
    ∀ (r X : Chars), p0 ∉ r → (p0 :: P') <:+: r ++ X → (p0 :: P') <:+: X := by
  intro r
  induction r with
  | nil => intro X _ h; simpa using h
  | cons a r ih =>
    intro X hmem h
    rw [List.cons_append] at h
    rcases List.infix_cons_iff.mp h with hpre | hinf
    · have he := (List.cons_prefix_cons.mp hpre).1
      have : p0 ∈ a :: r := by
        rw [he]
        exact List.mem_cons_self a r
      exact absurd this hmem
    · exact ih X (fun hm => hmem (List.mem_cons_of_mem _ hm)) hinf

/-- A global literal replace whose pattern starts with a character absent
from the replacement, and whose replacement characters are absent from the
pattern tail, leaves no occurrence of the pattern in its output. -/
theorem replAll_no_pattern (p0 : Char) (P' : Chars) (r0 : Char) (r' : Chars)
    (hmem : p0 ∉ r0 :: r') (hdisj : ∀ c ∈ r0 :: r', c ∉ P') :
    ∀ (fuel : Nat) (s : Chars), ¬ (p0 :: P') <:+: replAllGo (p0 :: P') (r0 :: r') fuel s := by
  intro fuel
  induction fuel with
  | zero =>
    intro s h
    rw [replAllGo] at h
    simpa using List.infix_nil.mp h
  | succ fuel ih =>
    intro s h
    match s with
    | [] =>
      rw [replAllGo] at h
      simpa using List.infix_nil.mp h
    | c :: cs =>
      rw [replAllGo] at h
      by_cases hp : (p0 :: P').isPrefixOf (c :: cs)
      · rw [if_pos hp] at h
        exact ih _ (infix_append_drop_of_not_mem (r0 :: r') _ hmem h)
      · rw [if_neg hp] at h
        rcases List.infix_cons_iff.mp h with hpre | hinf
        · obtain ⟨he, hP⟩ := List.cons_prefix_cons.mp hpre
          subst he
          have hcs : P' <+: cs := prefix_replAllGo (p0 :: P') r0 r' fuel cs P' hdisj hP
          exact hp (List.isPrefixOf_iff_prefix.mpr (List.cons_prefix_cons.mpr ⟨rfl, hcs⟩))
        · exact ih _ hinf

theorem postprocess_no_sentinel (s : Chars) :
    hasSub ("__ESCAPED_DOLLAR__".toList) (postprocessText s) = false := by
  cases hb : hasSub ("__ESCAPED_DOLLAR__".toList) (postprocessText s) with
  | false => rfl
  | true =>
    have h := replAll_no_pattern '_' ("_ESCAPED_DOLLAR__".toList) '$' []
      (by decide) (by decide) (s.length + 1) s
    exact absurd ((hasSub_iff _ _).mp hb) h

theorem preprocess_no_escape (s : Chars) :
    hasSub ("\\$".toList) (preprocessText s) = false := by
  cases hb : hasSub ("\\$".toList) (preprocessText s) with
  | false => rfl
  | true =>
    have h := replAll_no_pattern '\\' ("$".toList) '_' ("_ESCAPED_DOLLAR__".toList)
      (by decide) (by decide) (s.length + 1) s
    exact absurd ((hasSub_iff _ _).mp hb) h

theorem foldl_append_eq {α : Type} (f : α → Chars) :
    ∀ (l : List α) (init : Chars),
      l.foldl (fun acc x => acc ++ f x) init = init ++ (l.map f).flatten := by
  intro l
  induction l with
  | nil => intro init; simp
  | cons x l ih => intro init; simp [ih, List.append_assoc]

theorem reconstructText_eq (parts : List Chars) (m : List MathChunk) (r : List (Int × Chars)) :
    reconstructText parts m r = (parts.map (placeholderContribution m r)).flatten := by
  rw [reconstructText]
  simpa using foldl_append_eq (placeholderContribution m r) parts []

theorem lookup_eq_none_of (k : Int) :
    ∀ (xs : List (Int × Chars)), (∀ q ∈ xs, q.1 ≠ k) → xs.lookup k = none := by
  intro xs
  induction xs with
  | nil => intro; rfl
  | cons q xs ih =>
    intro h
    rcases q with ⟨k1, v⟩
    rw [List.lookup]
    have hne : (k == k1) = false := by
      refine beq_eq_false_iff_ne.mpr (fun he => ?_)
      exact h ⟨k1, v⟩ (List.mem_cons_self _ _) (by simpa using he.symm)
    rw [hne]
    exact ih (fun q hq => h q (List.mem_cons_of_mem _ hq))

/-! ## Claim theorems -/

/-- C4 counterexample: the token actually substituted for the math span of
`"$x+1$"` is `__MATH_INLINE_0__`, which contains the underscore — one of the
characters the claim says placeholders never contain (and `__…__` is
markdown bold syntax, so it is markdown-significant). -/
theorem c4_counterexample :
    ('_' ∈ placeholderToken MType.inline 0) ∧
    (parse ("$x+1$".toList)).textParts[1]? = some (placeholderToken MType.inline 0) := by
  constructor
  · decide
  · decide

/-- C4 (amended): every placeholder token consists only of underscores,
upper-case letters and decimal digits; in particular it contains none of
`*`, backtick, `[`, `]`, `#`, `|` — but it does contain underscores, and (as
C10 shows) it can collide with user content spelling the same token. -/
theorem c4_amended : ∀ (t : MType) (n : Nat), ∀ c ∈ placeholderToken t n,
    (c = '_' ∨ c.isUpper = true ∨ c.isDigit = true) ∧
    c ≠ '*' ∧ c ≠ Char.ofNat 96 ∧ c ≠ '[' ∧ c ≠ ']' ∧ c ≠ '#' ∧ c ≠ '|' := by
  intro t n c hc
  have hdig : c.isDigit = true →
      (c = '_' ∨ c.isUpper = true ∨ c.isDigit = true) ∧
      c ≠ '*' ∧ c ≠ Char.ofNat 96 ∧ c ≠ '[' ∧ c ≠ ']' ∧ c ≠ '#' ∧ c ≠ '|' := by
    intro hd
    refine ⟨Or.inr (Or.inr hd), ?_, ?_, ?_, ?_, ?_, ?_⟩ <;>
      · intro he
        rw [he] at hd
        exact absurd hd (by decide)
  cases t with
  | inline =>
    rw [placeholderToken] at hc
    rcases List.mem_append.mp hc with h | h
    · rcases List.mem_append.mp h with h2 | h2
      · fin_cases h2 <;> decide
      · rw [natToChars] at h2
        exact hdig (natDigitsGo_isDigit _ _ c h2)
    · fin_cases h <;> decide
  | display =>
    rw [placeholderToken] at hc
    rcases List.mem_append.mp hc with h | h
    · rcases List.mem_append.mp h with h2 | h2
      · fin_cases h2 <;> decide
      · rw [natToChars] at h2
        exact hdig (natDigitsGo_isDigit _ _ c h2)
    · fin_cases h <;> decide

/-- C4 witness: the amended theorem applied to the concrete character `M`
of the concrete token `__MATH_INLINE_0__`. -/
theorem c4_amended_witness :
    ('M' = '_' ∨ 'M'.isUpper = true ∨ 'M'.isDigit = true) ∧
    'M' ≠ '*' ∧ 'M' ≠ Char.ofNat 96 ∧ 'M' ≠ '[' ∧ 'M' ≠ ']' ∧ 'M' ≠ '#' ∧ 'M' ≠ '|' :=
  c4_amended MType.inline 0 'M' (by decide)

/-- C5 counterexample: on the spec's scenario input the computed stats
report `inlineMath = 2`, not `1` — the naive inline-math regex of
`calculateStats` also matches the `$…$`-shaped text inside the `$$…$$`
display block. -/
theorem c5_counterexample :
    (calculateStats mathScenarioInput [] 0).inlineMath = 2 ∧
    ((calculateStats mathScenarioInput [] 0).inlineMath == 1) = false := by
  constructor
  · rfl
  · rfl

/-- C5 (amended): for the scenario input, whatever HTML and duration are
supplied, `calculateStats` reports `inlineMath = 2` (the `$…$` text inside
the display block is counted a second time) and `displayMath = 1`. -/
theorem c5_amended : ∀ (html : Chars) (t : Nat),
    (calculateStats mathScenarioInput html t).inlineMath = 2 ∧
    (calculateStats mathScenarioInput html t).displayMath = 1 := by
  intro html t
  exact ⟨rfl, rfl⟩

/-- C6 counterexample: when the structural transform fails, the fallback
output on input `**bold**` is `<p><strong>bold</strong></p>` plus a newline
— basic formatting is applied and a paragraph wrapper added, so the output
differs from the HTML-escaped input with `<br>` for newlines. -/
theorem c6_counterexample :
    (fallbackProcess ("**bold**".toList)).html = ("<p><strong>bold</strong></p>\n".toList) ∧
    ((fallbackProcess ("**bold**".toList)).html ==
      replAll ("\n".toList) ("<br>".toList) (escapeHtml ("**bold**".toList))) = false := by
  constructor
  · rfl
  · rfl

/-- C6 (amended): the transform-failure fallback (`fallbackProcess`) always
reports `success = false`, the `fallback` processor tag and empty stats, but
its markup is not escape-and-line-break-only: it applies the basic regex
formatting rules (headers, bold, italic, code, code blocks, links, paragraph
and line-break substitution) to the escaped text and wraps it in a
paragraph, as the two concrete runs show.  Only the unreachable inner catch
of the source would return pure escaped text with `<br>`. -/
theorem c6_amended :
    (∀ s : Chars, (fallbackProcess s).success = false ∧
      (fallbackProcess s).processor = ProcessorKind.fallback ∧
      (fallbackProcess s).stats = getEmptyStats ∧
      (fallbackProcess s).error = some ("Using basic fallback processing".toList)) ∧
    (fallbackProcess ("**bold**".toList)).html = ("<p><strong>bold</strong></p>\n".toList) ∧
    (fallbackProcess ("# T\nx".toList)).html = ("<p><h1>T</h1><br>x</p>\n".toList) := by
  refine ⟨fun s => ⟨rfl, rfl, rfl, rfl⟩, rfl, rfl⟩

/-- C8 (confirmed): `processMarkdown` on the empty string and on null/absent
input returns, in every environment, the empty-markup result with all-zero
stats and `success = true`. -/
theorem c8_empty_input : ∀ env : UnifiedEnv,
    processMarkdown env (some ([] : Chars)) = emptyResult ∧
    processMarkdown env none = emptyResult ∧
    emptyResult.html = [] ∧ emptyResult.success = true ∧
    emptyResult.stats.inlineMath = 0 ∧ emptyResult.stats.displayMath = 0 ∧
    emptyResult.stats.codeBlocks = 0 ∧ emptyResult.stats.tables = 0 ∧
    emptyResult.stats.footnotes = 0 ∧ emptyResult.stats.processingTime = 0 := by
  intro env
  exact ⟨rfl, rfl, rfl, rfl, rfl, rfl, rfl, rfl, rfl, rfl⟩

/-- C9 (confirmed): `postprocessText` replaces every occurrence of the
literal sentinel `__ESCAPED_DOLLAR__` — its output never contains the
sentinel, and a sentinel present verbatim in user input is also replaced —
and the composition with `preprocessText` maps the two distinct inputs `\$`
and `__ESCAPED_DOLLAR__` to the same output `$`, so the escape round-trip is
not injective on user content. -/
theorem c9_sentinel_replacement :
    (∀ s : Chars, hasSub ("__ESCAPED_DOLLAR__".toList) (postprocessText s) = false) ∧
    postprocessText ("__ESCAPED_DOLLAR__".toList) = ("$".toList) ∧
    postprocessText (preprocessText ("\\$".toList)) = ("$".toList) ∧
    postprocessText (preprocessText ("__ESCAPED_DOLLAR__".toList)) = ("$".toList) ∧
    (("\\$".toList : Chars) == "__ESCAPED_DOLLAR__".toList) = false := by
  refine ⟨postprocess_no_sentinel, rfl, rfl, rfl, rfl⟩

/-- C10 (confirmed): in `reconstructText` every part beginning with
`__MATH_` is consumed as a placeholder — its trailing digits are parsed
(`-1` when absent) and the part is replaced by the rendered markup at that
index, else the matching chunk's original text, else nothing.  A literal
user segment such as `__MATH_foo ` extracts index `-1`; when neither the
rendered map nor the chunk list carries that index, the segment contributes
nothing, so it is silently omitted — on input `__MATH_foo $x+1$` the whole
reconstructed output is just the rendered math. -/
theorem c10_math_prefix_segment_dropped :
    (∀ (pre post : List Chars) (mathParts : List MathChunk) (rendered : List (Int × Chars)),
      (∀ q ∈ rendered, q.1 ≠ (-1 : Int)) → (∀ m ∈ mathParts, m.index ≠ (-1 : Int)) →
      reconstructText (pre ++ ("__MATH_foo ".toList) :: post) mathParts rendered =
        reconstructText (pre ++ post) mathParts rendered) ∧
    extractIndexFromPlaceholder ("__MATH_foo ".toList) = -1 ∧
    reconstructText (parse ("__MATH_foo $x+1$".toList)).textParts
      (parse ("__MATH_foo $x+1$".toList)).mathParts [((0 : Int), "[MATH]".toList)] =
      ("[MATH]".toList) := by
  refine ⟨?_, by decide, by decide⟩
  intro pre post mathParts rendered hr hm
  have hc : placeholderContribution mathParts rendered ("__MATH_foo ".toList) = [] := by
    rw [placeholderContribution, if_pos (by decide)]
    simp only [show extractIndexFromPlaceholder ("__MATH_foo ".toList) = -1 from by decide,
      lookup_eq_none_of (-1) rendered hr,
      List.find?_eq_none.mpr (fun x hx h => hm x hx (eq_of_beq h))]
  rw [reconstructText_eq, reconstructText_eq, List.map_append, List.map_append,
    List.map_cons, hc]
  simp

/-- C10 witness: the general segment-omission fact applied at a concrete
instance with empty surrounding context. -/
theorem c10_witness :
    reconstructText (([] : List Chars) ++ ("__MATH_foo ".toList) :: []) [] [] =
      reconstructText (([] : List Chars) ++ []) [] [] :=
  c10_math_prefix_segment_dropped.1 [] [] [] [] (by simp) (by simp)

/-- C7 counterexample: when rendering throws, the error-styled fallback does
not preserve the delimited math source — `$a+b$` does not occur in the error
markup for content `a+b` (while it does occur in the neutral fallback). -/
theorem c7_counterexample :
    renderMath (KatexEngine.loaded (fun _ _ => Except.error (some ("bad".toList))))
      ("a+b".toList) false =
      createErrorHTML ("a+b".toList) false (some ("bad".toList)) ∧
    hasSub ("$a+b$".toList) (createErrorHTML ("a+b".toList) false (some ("bad".toList))) = false ∧
    hasSub ("$a+b$".toList) (createFallbackHTML ("a+b".toList) false) = true := by
  refine ⟨rfl, by decide, by decide⟩

/-- C7 (amended): `renderMath` is total; with an unavailable engine it
returns the neutral fallback, which preserves the literal math source with
its delimiters inside a `math-fallback-*` container; when the engine throws
it returns the error markup, which preserves the escaped math source without
delimiters inside a `math-error-*` container; on success the output is
wrapped in the `katex-*-container` span; and the three container classes are
pairwise distinct, so the three outcomes are distinguishable. -/
theorem c7_amended : ∀ (content : Chars) (dm : Bool)
    (f : Chars → Bool → Except (Option Chars) Chars),
    (renderMath KatexEngine.unavailable content dm = createFallbackHTML content dm ∧
      (mathSymbol dm ++ escapeHtmlDom content ++ mathSymbol dm) <:+:
        renderMath KatexEngine.unavailable content dm ∧
      (("<span class=\"".toList) ++ fallbackContainerClass dm) <+:
        renderMath KatexEngine.unavailable content dm) ∧
    (∀ e, f content dm = Except.error e →
      renderMath (KatexEngine.loaded f) content dm = createErrorHTML content dm e ∧
      escapeHtmlDom content <:+: renderMath (KatexEngine.loaded f) content dm ∧
      (("<span class=\"".toList) ++ errorContainerClass dm) <+:
        renderMath (KatexEngine.loaded f) content dm) ∧
    (∀ r, f content dm = Except.ok r →
      (("<span class=\"".toList) ++ katexContainerClass dm) <+:
        renderMath (KatexEngine.loaded f) content dm) ∧
    ((fallbackContainerClass dm == errorContainerClass dm) = false ∧
      (fallbackContainerClass dm == katexContainerClass dm) = false ∧
      (errorContainerClass dm == katexContainerClass dm) = false) := by
  intro content dm f
  refine ⟨⟨rfl, ?_, ?_⟩, ?_, ?_, ?_⟩
  · refine ⟨("<span class=\"".toList) ++ fallbackContainerClass dm
      ++ ("\" title=\"Math formula (KaTeX not loaded)\">".toList), ("</span>".toList), ?_⟩
    rw [renderMath, createFallbackHTML]
    simp [List.append_assoc]
  · refine ⟨("\" title=\"Math formula (KaTeX not loaded)\">".toList) ++ mathSymbol dm
      ++ escapeHtmlDom content ++ mathSymbol dm ++ ("</span>".toList), ?_⟩
    rw [renderMath, createFallbackHTML]
    simp [List.append_assoc]
  · intro e he
    refine ⟨by rw [renderMath, he], ?_, ?_⟩
    · simp only [renderMath, he]
      refine ⟨("<span class=\"".toList) ++ errorContainerClass dm
        ++ ("\" title=\"Math error: ".toList) ++ escapeHtmlDom (errorMessageOf e)
        ++ ("\">".toList), ("</span>".toList), ?_⟩
      simp [createErrorHTML, List.append_assoc]
    · simp only [renderMath, he]
      refine ⟨("\" title=\"Math error: ".toList) ++ escapeHtmlDom (errorMessageOf e)
        ++ ("\">".toList) ++ escapeHtmlDom content ++ ("</span>".toList), ?_⟩
      simp [createErrorHTML, List.append_assoc]
  · intro r hr
    simp only [renderMath, hr]
    refine ⟨("\">".toList) ++ r ++ ("</span>".toList), ?_⟩
    simp [List.append_assoc]
  · cases dm <;> exact ⟨rfl, rfl, rfl⟩

/-- C7 witness: the error branch of the amended theorem applied to a
concrete always-throwing engine. -/
theorem c7_amended_witness :
    renderMath (KatexEngine.loaded (fun _ _ => Except.error none)) ("x".toList) false =
      createErrorHTML ("x".toList) false none ∧
    escapeHtmlDom ("x".toList) <:+:
      renderMath (KatexEngine.loaded (fun _ _ => Except.error none)) ("x".toList) false ∧
    (("<span class=\"".toList) ++ errorContainerClass false) <+:
      renderMath (KatexEngine.loaded (fun _ _ => Except.error none)) ("x".toList) false :=
  (c7_amended ("x".toList) false (fun _ _ => Except.error none)).2.1 none rfl

/-- C1 counterexample: when the external transform throws an `Error` whose
own message is empty, `processMarkdown` takes the fallback path but the
returned error message is the empty string — not a non-empty message as the
claim demands. -/
theorem c1_counterexample :
    (processMarkdown
        { isInitialized := true,
          transform := fun _ => Except.error { isError := true, message := [] },
          elapsed := 0 } (some ("x".toList))).processor = ProcessorKind.fallback ∧
    (processMarkdown
        { isInitialized := true,
          transform := fun _ => Except.error { isError := true, message := [] },
          elapsed := 0 } (some ("x".toList))).error = some [] := by
  exact ⟨rfl, rfl⟩

theorem exceptTryCatch_ok {e a : Type} (ma : Except e a) (h : e → Except e a)
    (hh : ∀ err, ∃ r, h err = Except.ok r) : ∃ r, Except.tryCatch ma h = Except.ok r := by
  cases ma with
  | ok v => exact ⟨v, rfl⟩
  | error err => simpa [Except.tryCatch] using hh err

/-- C1 (amended): `processMarkdown` never propagates an exception — in the
exception-monad model it always returns `ok` — and whenever the fallback
path is taken the result has `succeeded = false` and carries an error
message, which is non-empty except in the single case where the transform
threw an `Error` instance whose own message was empty (then that empty
message is passed through). -/
theorem c1_amended :
    (∀ (env : UnifiedEnv) (input : Option Chars),
      ∃ res, processMarkdownE env input = Except.ok res) ∧
    (∀ (env : UnifiedEnv) (md : Chars) (res : ProcessingResult),
      processMarkdown env (some md) = res → res.processor = ProcessorKind.fallback →
      res.success = false ∧
        ∃ msg, res.error = some msg ∧
          (msg = [] → env.transform md = Except.error { isError := true, message := [] })) := by
  constructor
  · intro env input
    cases input with
    | none => exact ⟨emptyResult, rfl⟩
    | some md =>
      rw [processMarkdownE]
      by_cases h1 : md.isEmpty
      · rw [if_pos h1]
        exact ⟨emptyResult, rfl⟩
      · rw [if_neg h1]
        by_cases h2 : env.isInitialized
        · rw [show (!env.isInitialized) = false by simp [h2], if_neg (by decide)]
          exact exceptTryCatch_ok _ _ (fun e => ⟨_, rfl⟩)
        · have h2f : env.isInitialized = false := by simpa using h2
          rw [show (!env.isInitialized) = true by simp [h2f], if_pos rfl]
          exact ⟨fallbackProcess md, rfl⟩
  · intro env md res hres hfb
    rw [processMarkdown] at hres
    by_cases h1 : md.isEmpty
    · rw [if_pos h1] at hres
      subst hres
      exact absurd hfb (by decide)
    · rw [if_neg h1] at hres
      by_cases h2 : env.isInitialized
      · rw [show (!env.isInitialized) = false by simp [h2], if_neg (by decide)] at hres
        cases ht : env.transform md with
        | ok processed =>
          rw [ht] at hres
          subst hres
          exact ProcessorKind.noConfusion hfb
        | error e =>
          rw [ht] at hres
          subst hres
          refine ⟨rfl, ?_⟩
          by_cases he : e.isError
          · refine ⟨e.message, by simp [he], ?_⟩
            intro hmsg
            rcases e with ⟨ei, em⟩
            have h3 : ei = true := he
            have h4 : em = [] := hmsg
            subst h3
            subst h4
            rfl
          · exact ⟨"Processing failed".toList, by simp [he],
              fun hmsg => absurd hmsg (by decide)⟩
      · have h2f : env.isInitialized = false := by simpa using h2
        rw [show (!env.isInitialized) = true by simp [h2f], if_pos rfl] at hres
        subst hres
        exact ⟨rfl, "Using basic fallback processing".toList, rfl,
          fun hmsg => absurd hmsg (by decide)⟩

/-- C1 witness: the amended fallback-path guarantee applied to a concrete
environment whose transform throws a non-`Error` value. -/
theorem c1_amended_witness :
    (processMarkdown
        { isInitialized := true,
          transform := fun _ => Except.error { isError := false, message := ("boom".toList) },
          elapsed := 0 } (some ("hi".toList))).success = false :=
  (c1_amended.2
    { isInitialized := true,
      transform := fun _ => Except.error { isError := false, message := ("boom".toList) },
      elapsed := 0 }
    ("hi".toList) _ rfl rfl).1

/-- C3 (confirmed): an escaped marker `\$` never starts or ends a math span
— after `preprocessText` the text handed to the scanner contains no `\$` at
all, every escape having been replaced by the dollar-free sentinel — and on
the concrete input `Price: \$5 and $x+1$` the component pipeline (with the
external showdown transform modelled as any function that passes the
sentinel-bearing text segment through wrapped in a paragraph, and a KaTeX
engine rendering `x+1`) produces literal `Price: $5 and` followed by the
rendered inline math container. -/
theorem c3_escaped_dollar_roundtrip :
    (∀ t : Chars, hasSub ("\\$".toList) (preprocessText t) = false) ∧
    (∀ (md : Chars → Chars) (f : Chars → Bool → Except (Option Chars) Chars),
      md [] = [] →
      md ("Price: __ESCAPED_DOLLAR__5 and ".toList) =
        ("<p>Price: __ESCAPED_DOLLAR__5 and </p>".toList) →
      f ("x+1".toList) false = Except.ok ("E0".toList) →
      processMathMarkdown md (KatexEngine.loaded f) ("Price: \\$5 and $x+1$".toList) =
        ("<p>Price: $5 and </p><span class=\"katex-inline-container\">E0</span>".toList)) := by
  refine ⟨preprocess_no_escape, ?_⟩
  intro md f h0 h1 hf
  have hstep : processMathMarkdown md (KatexEngine.loaded f) ("Price: \\$5 and $x+1$".toList) =
      postprocessText (processReconstructedMarkdown md
        (reconstructText
          [("Price: __ESCAPED_DOLLAR__5 and ".toList), ("__MATH_INLINE_0__".toList), []]
          [{ content := ("x+1".toList), type := MType.inline, index := 0,
             originalMatch := ("$x+1$".toList) }]
          (renderMathBatch (KatexEngine.loaded f)
            [{ content := ("x+1".toList), type := MType.inline, index := 0,
               originalMatch := ("$x+1$".toList) }]))) := rfl
  have hbatch : renderMathBatch (KatexEngine.loaded f)
      [{ content := ("x+1".toList), type := MType.inline, index := 0,
         originalMatch := ("$x+1$".toList) }] =
      [((0 : Int), renderMath (KatexEngine.loaded f) ("x+1".toList) false)] := rfl
  have hrm : renderMath (KatexEngine.loaded f) ("x+1".toList) false =
      ("<span class=\"katex-inline-container\">E0</span>".toList) := by
    rw [renderMath, hf]
    rfl
  rw [hstep, hbatch, hrm]
  have hrecon : reconstructText
      [("Price: __ESCAPED_DOLLAR__5 and ".toList), ("__MATH_INLINE_0__".toList), []]
      [{ content := ("x+1".toList), type := MType.inline, index := 0,
         originalMatch := ("$x+1$".toList) }]
      [((0 : Int), ("<span class=\"katex-inline-container\">E0</span>".toList))] =
      ("Price: __ESCAPED_DOLLAR__5 and <span class=\"katex-inline-container\">E0</span>".toList) :=
    rfl
  rw [hrecon]
  have hsplit : processReconstructedMarkdown md
      ("Price: __ESCAPED_DOLLAR__5 and <span class=\"katex-inline-container\">E0</span>".toList) =
      md ("Price: __ESCAPED_DOLLAR__5 and ".toList) ++
        (("<span class=\"katex-inline-container\">E0</span>".toList) ++ (md [] ++ [])) := rfl
  rw [hsplit, h1, h0]
  rfl

/-- C3 witness: the concrete pipeline fact applied to a concrete modelled
markdown transform and engine. -/
theorem c3_witness :
    processMathMarkdown
      (fun s => if s.isEmpty then [] else ("<p>".toList) ++ s ++ ("</p>".toList))
      (KatexEngine.loaded (fun _ _ => Except.ok ("E0".toList)))
      ("Price: \\$5 and $x+1$".toList) =
      ("<p>Price: $5 and </p><span class=\"katex-inline-container\">E0</span>".toList) :=
  c3_escaped_dollar_roundtrip.2
    (fun s => if s.isEmpty then [] else ("<p>".toList) ++ s ++ ("</p>".toList))
    (fun _ _ => Except.ok ("E0".toList)) rfl (by decide) rfl

theorem runLen_le (p : Char → Bool) : ∀ l : Chars, runLen p l ≤ l.length := by
  intro l
  induction l with
  | nil => simp [runLen]
  | cons c cs ih =>
    rw [runLen]
    by_cases h : p c = true
    · rw [if_pos h]
      simpa using Nat.succ_le_succ ih
    · rw [if_neg h]
      exact Nat.zero_le _

theorem runLen_sat (p : Char → Bool) :
    ∀ (l : Chars) (i : Nat), i < runLen p l → ∃ c, l[i]? = some c ∧ p c = true := by
  intro l
  induction l with
  | nil => intro i hi; simp [runLen] at hi
  | cons c cs ih =>
    intro i hi
    rw [runLen] at hi
    by_cases h : p c = true
    · rw [if_pos h] at hi
      cases i with
      | zero => exact ⟨c, by simp, h⟩
      | succ i =>
        obtain ⟨c2, hc2, hp⟩ := ih i (by omega)
        exact ⟨c2, by simpa using hc2, hp⟩
    · rw [if_neg h] at hi
      omega

theorem inlineMatchAt_spec {cs raw : Chars} {L : Nat}
    (h : inlineMatchAt cs = some (raw, L)) :
    L = raw.length + 2 ∧ 1 ≤ raw.length ∧
      ∀ j c, 1 ≤ j → j ≤ raw.length → cs[j]? = some c → ¬ c = '$' := by
  match cs with
  | [] => simp [inlineMatchAt] at h
  | c0 :: tail =>
    simp only [inlineMatchAt] at h
    by_cases h1 : c0 = '$'
    · rw [if_pos h1] at h
      by_cases h2 : runLen (fun x => x != '$' && x != '\n') tail = 0
      · rw [if_pos h2] at h
        exact absurd h (by simp)
      · rw [if_neg h2] at h
        by_cases h3 : tail[runLen (fun x => x != '$' && x != '\n') tail]? = some '$'
        · rw [if_pos h3] at h
          have hinj := Option.some.inj h
          have hraw : tail.take (runLen (fun x => x != '$' && x != '\n') tail) = raw :=
            congrArg Prod.fst hinj
          have hL : runLen (fun x => x != '$' && x != '\n') tail + 2 = L :=
            congrArg Prod.snd hinj
          have hklen : runLen (fun x => x != '$' && x != '\n') tail < tail.length := by
            by_contra hcon
            rw [List.getElem?_eq_none (by omega)] at h3
            exact absurd h3 (by simp)
          have hrawlen : raw.length = runLen (fun x => x != '$' && x != '\n') tail := by
            rw [← hraw, List.length_take]
            omega
          refine ⟨by omega, by omega, ?_⟩
          intro j c hj1 hj2 hget
          obtain ⟨j2, rfl⟩ : ∃ j2, j = j2 + 1 := ⟨j - 1, by omega⟩
          rw [List.getElem?_cons_succ] at hget
          obtain ⟨c2, hc2, hp⟩ :=
            runLen_sat (fun x => x != '$' && x != '\n') tail j2 (by omega)
          rw [hc2] at hget
          have hcc : c = c2 := (Option.some.inj hget).symm
          subst hcc
          intro hceq
          subst hceq
          exact absurd hp (by decide)
        · rw [if_neg h3] at h
          exact absurd h (by simp)
    · rw [if_neg h1] at h
      exact absurd h (by simp)

theorem displayMatchAt_spec {cs content : Chars} {L : Nat}
    (h : displayMatchAt cs = some (content, L)) :
    5 ≤ L ∧ cs[1]? = some '$' := by
  match cs with
  | [] => simp [displayMatchAt] at h
  | [c0] => simp [displayMatchAt] at h
  | c1 :: c2 :: tail =>
    simp only [displayMatchAt] at h
    by_cases h1 : c1 = '$' ∧ c2 = '$'
    · rw [if_pos h1] at h
      by_cases h2 : runLen (fun x => x != '$') tail = 0
      · rw [if_pos h2] at h
        exact absurd h (by simp)
      · rw [if_neg h2] at h
        by_cases h3 : tail[runLen (fun x => x != '$') tail]? = some '$' ∧
            tail[runLen (fun x => x != '$') tail + 1]? = some '$'
        · rw [if_pos h3] at h
          have hL := congrArg Prod.snd (Option.some.inj h)
          refine ⟨by omega, ?_⟩
          simp [h1.2]
        · rw [if_neg h3] at h
          exact absurd h (by simp)
    · rw [if_neg h1] at h
      exact absurd h (by simp)

theorem mem_scanDisplayGo : ∀ (fuel : Nat) (cs : Chars) (pos : Nat) (e : MathExpr),
    e ∈ scanDisplayGo fuel cs pos →
    e.type = MType.display ∧ e.start + 5 ≤ e.stop ∧
      ∃ r, e.start = pos + r ∧ cs[r + 1]? = some '$' := by
  intro fuel
  induction fuel with
  | zero => intro cs pos e h; simp [scanDisplayGo] at h
  | succ fuel ih =>
    intro cs pos e h
    match cs with
    | [] => simp [scanDisplayGo] at h
    | c :: cs2 =>
      simp only [scanDisplayGo] at h
      cases hm : displayMatchAt (c :: cs2) with
      | none =>
        simp only [hm] at h
        obtain ⟨ht, hs, r, hr, hc⟩ := ih cs2 (pos + 1) e h
        refine ⟨ht, hs, r + 1, by omega, ?_⟩
        rw [show r + 1 + 1 = (r + 1) + 1 from rfl, List.getElem?_cons_succ]
        exact hc
      | some val =>
        rcases val with ⟨content, L⟩
        simp only [hm] at h
        rcases List.mem_cons.mp h with he | he
        · subst he
          obtain ⟨hL, hch⟩ := displayMatchAt_spec hm
          refine ⟨rfl, by simp; omega, 0, by simp, by simpa using hch⟩
        · obtain ⟨ht, hs, r, hr, hc⟩ := ih ((c :: cs2).drop L) (pos + L) e he
          refine ⟨ht, hs, L + r, by omega, ?_⟩
          rw [show L + r + 1 = L + (r + 1) from by omega, ← List.getElem?_drop]
          exact hc

theorem mem_scanInlineGo : ∀ (fuel : Nat) (cs : Chars) (pos : Nat) (prev : Option Char)
    (m : InlineMatch), m ∈ scanInlineGo fuel cs pos prev →
    m.stop = m.start + m.raw.length + 2 ∧ 1 ≤ m.raw.length ∧
      ∃ r, m.start = pos + r ∧
        ∀ j c, 1 ≤ j → j ≤ m.raw.length → cs[r + j]? = some c → ¬ c = '$' := by
  intro fuel
  induction fuel with
  | zero => intro cs pos prev m h; simp [scanInlineGo] at h
  | succ fuel ih =>
    intro cs pos prev m h
    match cs with
    | [] => simp [scanInlineGo] at h
    | c :: cs2 =>
      simp only [scanInlineGo] at h
      by_cases hprev : prev = some '\\'
      · rw [if_pos hprev] at h
        obtain ⟨h1, h2, r, hr, hint⟩ := ih cs2 (pos + 1) (some c) m h
        refine ⟨h1, h2, r + 1, by omega, ?_⟩
        intro j cc hj1 hj2 hget
        apply hint j cc hj1 hj2
        rw [show r + 1 + j = (r + j) + 1 from by omega, List.getElem?_cons_succ] at hget
        exact hget
      · rw [if_neg hprev] at h
        cases hm : inlineMatchAt (c :: cs2) with
        | none =>
          simp only [hm] at h
          obtain ⟨h1, h2, r, hr, hint⟩ := ih cs2 (pos + 1) (some c) m h
          refine ⟨h1, h2, r + 1, by omega, ?_⟩
          intro j cc hj1 hj2 hget
          apply hint j cc hj1 hj2
          rw [show r + 1 + j = (r + j) + 1 from by omega, List.getElem?_cons_succ] at hget
          exact hget
        | some val =>
          rcases val with ⟨raw, L⟩
          simp only [hm] at h
          rcases List.mem_cons.mp h with he | he
          · subst he
            obtain ⟨hL, hlen, hint⟩ := inlineMatchAt_spec hm
            refine ⟨by simp; omega, by simpa using hlen, 0, by simp, ?_⟩
            intro j cc hj1 hj2 hget
            exact hint j cc hj1 (by simpa using hj2) (by simpa using hget)
          · obtain ⟨h1, h2, r, hr, hint⟩ := ih ((c :: cs2).drop L) (pos + L) (some '$') m he
            refine ⟨h1, h2, L + r, by omega, ?_⟩
            intro j cc hj1 hj2 hget
            apply hint j cc hj1 hj2
            rw [List.getElem?_drop, show L + (r + j) = L + r + j from by omega]
            exact hget

theorem mem_foldl_inlineAccept : ∀ (inl : List InlineMatch) (acc : List MathExpr) (e : MathExpr),
    e ∈ inl.foldl inlineAccept acc →
    e ∈ acc ∨ ∃ m ∈ inl,
      e = { matched := m.matched, content := trimChars m.raw, type := MType.inline,
            start := m.start, stop := m.stop } ∧
      ∀ d ∈ acc, overlapsCheck d m.start m.stop = false := by
  intro inl
  induction inl with
  | nil => intro acc e h; exact Or.inl (by simpa using h)
  | cons m inl ih =>
    intro acc e h
    rw [List.foldl_cons] at h
    rcases ih (inlineAccept acc m) e h with hacc | ⟨m2, hm2, heq, hov⟩
    · rw [inlineAccept] at hacc
      split_ifs at hacc with h1 h2
      · exact Or.inl hacc
      · rcases List.mem_append.mp hacc with h3 | h3
        · exact Or.inl h3
        · rw [List.mem_singleton] at h3
          refine Or.inr ⟨m, List.mem_cons_self m inl, h3, ?_⟩
          intro d hd
          by_cases hfd : overlapsCheck d m.start m.stop = true
          · exact absurd (List.any_eq_true.mpr ⟨d, hd, hfd⟩) h1
          · simpa using hfd
      · exact Or.inl hacc
    · refine Or.inr ⟨m2, List.mem_cons_of_mem _ hm2, heq, fun d hd => hov d ?_⟩
      rw [inlineAccept]
      split_ifs with h1 h2
      · exact hd
      · exact List.mem_append.mpr (Or.inl hd)
      · exact hd

/-- C2 (confirmed): on `$$a+b$$` the scanner emits exactly one span — a
Display span with content `a+b` (never two Inline spans, never a leftover
Inline span); on every input the returned list is sorted ascending by start
offset (`startLE`); and no emitted Inline span overlaps an emitted Display
span as source intervals. -/
theorem c2_display_priority :
    (extractMathExpressions ("$$a+b$$".toList) =
      [{ matched := ("$$a+b$$".toList), content := ("a+b".toList), type := MType.display,
         start := 0, stop := 7 }]) ∧
    (∀ text : Chars, List.Sorted startLE (extractMathExpressions text)) ∧
    (∀ text : Chars, ∀ d ∈ extractMathExpressions text, ∀ i ∈ extractMathExpressions text,
      d.type = MType.display → i.type = MType.inline →
      ¬ (d.start < i.stop ∧ i.start < d.stop)) := by
  refine ⟨by decide, ?_, ?_⟩
  · intro text
    rw [extractMathExpressions]
    exact List.sorted_insertionSort startLE _
  · intro text d hd i hi htd hti hov
    have hperm :=
      List.perm_insertionSort startLE ((scanInline text).foldl inlineAccept (scanDisplay text))
    rw [extractMathExpressions] at hd hi
    have hd2 := hperm.mem_iff.mp hd
    have hi2 := hperm.mem_iff.mp hi
    rcases mem_foldl_inlineAccept _ _ _ hd2 with hD | ⟨mD, _, heqD, _⟩
    · rcases mem_foldl_inlineAccept _ _ _ hi2 with hiD | ⟨m, hmI, heq, hovAll⟩
      · have hty := (mem_scanDisplayGo _ _ _ _ hiD).1
        rw [hti] at hty
        exact MType.noConfusion hty
      · have hovd := hovAll d hD
        obtain ⟨htD, hsD, rD, hrD, hcD⟩ := mem_scanDisplayGo _ _ _ _ hD
        obtain ⟨hstop, hlen, r, hrI, hint⟩ := mem_scanInlineGo _ _ _ _ _ hmI
        have hovn : ¬ ((m.start ≥ d.start ∧ m.start < d.stop) ∨
            (m.stop > d.start ∧ m.stop ≤ d.stop)) := by
          intro hcon
          rcases hcon with ⟨ha, hb⟩ | ⟨ha, hb⟩
          · have : overlapsCheck d m.start m.stop = true := by
              simp [overlapsCheck, ha, hb]
            rw [this] at hovd
            exact Bool.noConfusion hovd
          · have : overlapsCheck d m.start m.stop = true := by
              simp [overlapsCheck, ha, hb]
            rw [this] at hovd
            exact Bool.noConfusion hovd
        have histart : i.start = m.start := by rw [heq]
        have histop : i.stop = m.stop := by rw [heq]
        rw [histart, histop] at hov
        have hs1 : m.start < d.start := by omega
        have hs2 : d.stop < m.stop := by omega
        have hj1 : 1 ≤ d.start + 1 - m.start := by omega
        have hj2 : d.start + 1 - m.start ≤ m.raw.length := by omega
        have hidx : r + (d.start + 1 - m.start) = rD + 1 := by omega
        have := hint (d.start + 1 - m.start) '$' hj1 hj2 (by rw [hidx]; exact hcD)
        exact this rfl
    · rw [heqD] at htd
      exact MType.noConfusion htd

/-- C2 witness: the no-overlap guarantee applied to the two concrete spans
the scanner finds in `$x+1$ and $$a+b$$`. -/
theorem c2_display_priority_witness :
    ¬ (({ matched := ("$$a+b$$".toList), content := ("a+b".toList),
            type := MType.display, start := 10, stop := 17 } : MathExpr).start <
        ({ matched := ("$x+1$".toList), content := ("x+1".toList),
            type := MType.inline, start := 0, stop := 5 } : MathExpr).stop ∧
       ({ matched := ("$x+1$".toList), content := ("x+1".toList),
            type := MType.inline, start := 0, stop := 5 } : MathExpr).start <
        ({ matched := ("$$a+b$$".toList), content := ("a+b".toList),
            type := MType.display, start := 10, stop := 17 } : MathExpr).stop) :=
  c2_display_priority.2.2 ("$x+1$ and $$a+b$$".toList)
    ({ matched := ("$$a+b$$".toList), content := ("a+b".toList),
        type := MType.display, start := 10, stop := 17 } : MathExpr) (by decide)
    ({ matched := ("$x+1$".toList), content := ("x+1".toList),
        type := MType.inline, start := 0, stop := 5 } : MathExpr) (by decide) rfl rfl
